import Mathlib

/-!
Verification of `watcher_checker.py` (Watcher 1.0).

Shallow embedding of the script into Lean 4.  Conventions used throughout:

* Python `str` is modeled as `String` / `List Char`; regular-expression
  searches are hand-compiled into explicit leftmost/greedy matchers over
  `List Char` suffixes (`List.tails` enumerates candidate start positions
  from the left, matching `re.search` semantics).
* Python `float` values are modeled as exact rationals (`ℚ`); `float(s)`
  is modeled by `floatParseCL`, restricted to plain decimal literals,
  the only shapes that occur in this program.  `f-string` rounding
  (`:.2f`, `:+.2f`) is modeled as round-half-to-even on the rational.
* `None` is `Option.none`; a Python function that can raise is modeled
  with `Except String`.
* The parsed HTML document (BeautifulSoup tree) is modeled by the
  inductive type `Node`; bs4 traversal helpers (`get_text`, `find_all`,
  `find_next_sibling`, `select_one`, `find_next`) are modeled by
  structurally recursive functions in document order.
-/

/-! ## Character and string helpers -/

/-- Model of Unicode lower-casing (`re.IGNORECASE` folding) for the
alphabet appearing in the script: ASCII plus the Czech letters used in
the keyword lists. -/
def pyLower (c : Char) : Char :=
  match c with
  | 'Á' => 'á' | 'Č' => 'č' | 'Ď' => 'ď' | 'É' => 'é' | 'Ě' => 'ě' | 'Í' => 'í'
  | 'Ň' => 'ň' | 'Ó' => 'ó' | 'Ř' => 'ř' | 'Š' => 'š' | 'Ť' => 'ť' | 'Ú' => 'ú'
  | 'Ů' => 'ů' | 'Ý' => 'ý' | 'Ž' => 'ž'
  | c => c.toLower

/-- Lower-case a character list. -/
def lowerL (l : List Char) : List Char := l.map pyLower

/-- Python whitespace (`str.strip`, `str.split`, regex `\s`):
space, tab, newline, carriage return, vertical tab, form feed and
non-breaking space (the characters occurring in the data of this program). -/
def isPySpace (c : Char) : Bool :=
  c = ' ' ∨ c = '\t' ∨ c = '\n' ∨ c = '\r' ∨ c = '\u000b' ∨ c = '\u000c' ∨ c = ' '

/-- Python `str.strip()` on a character list. -/
def pyStripL (l : List Char) : List Char :=
  ((l.dropWhile isPySpace).reverse.dropWhile isPySpace).reverse

/-- Python `str.strip()`. -/
def pyStrip (s : String) : String := String.mk (pyStripL s.toList)

/-- Python `str.split()` (split on whitespace runs, dropping empties),
on character lists.  `acc` holds the current word reversed. -/
def splitWsAux : List Char → List Char → List (List Char)
  | [], acc => if acc = [] then [] else [acc.reverse]
  | c :: rest, acc =>
    if isPySpace c then
      if acc = [] then splitWsAux rest [] else acc.reverse :: splitWsAux rest []
    else splitWsAux rest (c :: acc)

/-- Python `" ".join(words)` on character lists. -/
def joinSpace : List (List Char) → List Char
  | [] => []
  | [w] => w
  | w :: ws => w ++ ' ' :: joinSpace ws

/-- Python `" ".join(d.split())` — collapse internal whitespace (line 190 of the
source). -/
def collapseWs (s : String) : String := String.mk (joinSpace (splitWsAux s.toList []))

/-- Case-insensitive "kw occurs in t" — model of
`re.search(re.escape(kw), t, re.IGNORECASE)` succeeding.  A suffix of `t`
starts (case-insensitively) with `kw`. -/
def iPrefixAt (kw : List Char) (suf : List Char) : Bool :=
  (lowerL kw).isPrefixOf (lowerL suf)

/-- Case-insensitive substring test on character lists. -/
def icontainsL (t kw : List Char) : Bool := t.tails.any (iPrefixAt kw)

/-- Case-sensitive substring test (CSS `[attr*=value]` matching). -/
def containsSubL (t sub : List Char) : Bool := t.tails.any (sub.isPrefixOf ·)

/-! ## Model of Python floats and number formatting

Python floats are modeled as exact unnormalized fractions of integers
(`Frac`).  All float values in this program are parsed from decimal
literals, and the only arithmetic performed on them is the percentage
`(b - a) / a * 100`, so exact rational arithmetic is a faithful model up
to double-precision representation error (which could only show in the
last formatted digit for razor-edge inputs). -/

structure Frac where
  num : ℤ
  den : ℤ
deriving DecidableEq

/-- Fraction subtraction `a - b`. -/
def Frac.sub (a b : Frac) : Frac := ⟨a.num * b.den - b.num * a.den, a.den * b.den⟩

/-- Fraction division `a / b`. -/
def Frac.div (a b : Frac) : Frac := ⟨a.num * b.den, a.den * b.num⟩

/-- Fraction scaling `a * 100`. -/
def Frac.mul100 (a : Frac) : Frac := ⟨a.num * 100, a.den⟩

/-- Sign test `a < 0`. -/
def Frac.isNeg (a : Frac) : Bool := a.num * a.den < 0

/-- Zero test `a == 0` (the parser always produces a positive denominator). -/
def Frac.isZero (a : Frac) : Bool := a.num = 0

/-- Numeric value of a digit list (most significant first). -/
def digitsVal (l : List Char) : ℕ := l.foldl (fun a c => a * 10 + (c.toNat - 48)) 0

/-- Model of Python `float(s)` restricted to plain decimal literals
(optional surrounding whitespace, optional sign, digits with at most one
decimal point) — the only forms this program ever passes to `float`.
Returns `none` where Python raises `ValueError`. -/
def floatParseCL (l : List Char) : Option Frac :=
  let l := pyStripL l
  let sgn : ℤ := match l with | '-' :: _ => -1 | _ => 1
  let l' := match l with | '+' :: r => r | '-' :: r => r | r => r
  let ip := l'.takeWhile Char.isDigit
  let rest := l'.dropWhile Char.isDigit
  match rest with
  | [] => if ip = [] then none else some ⟨sgn * (digitsVal ip : ℤ), 1⟩
  | '.' :: r =>
    let fp := r.takeWhile Char.isDigit
    let rest2 := r.dropWhile Char.isDigit
    if rest2 = [] ∧ ¬(ip = [] ∧ fp = []) then
      some ⟨sgn * ((digitsVal ip : ℤ) * 10 ^ fp.length + (digitsVal fp : ℤ)), (10 : ℤ) ^ fp.length⟩
    else none
  | _ => none

/-- Model of Python `float(s)` on strings. -/
def floatParse (s : String) : Option Frac := floatParseCL s.toList

/-- Round half to even (Python/IEEE default rounding used by `format`),
on a fraction with nonzero denominator. -/
def rheFrac (a : Frac) : ℤ :=
  let n := if a.den < 0 then -a.num else a.num
  let d := if a.den < 0 then -a.den else a.den
  let f := n.ediv d
  let r2 := 2 * (n - f * d)
  if r2 > d then f + 1 else if r2 < d then f else if f.emod 2 = 0 then f else f + 1

/-- Two-digit zero padding. -/
def natPad2 (n : ℕ) : String := if n < 10 then "0" ++ toString n else toString n

/-- Magnitude of `a` rendered with exactly two fraction digits. -/
def fmt2Abs (a : Frac) : String :=
  let m := (rheFrac ⟨(a.num.natAbs : ℤ) * 100, (a.den.natAbs : ℤ)⟩).toNat
  toString (m / 100) ++ "." ++ natPad2 (m % 100)

/-- Model of Python `f"{q:.2f}"`. -/
def fmt2 (a : Frac) : String := (if a.isNeg then "-" else "") ++ fmt2Abs a

/-- Model of Python `f"{q:+.2f}"` (explicit sign). -/
def fmtPctSigned (a : Frac) : String := (if a.isNeg then "-" else "+") ++ fmt2Abs a

/-! ## `normalize_price` (source lines 81–102)

The primary regex is
`([€$]|Kč|CZK)?\s*([+-]?\d{1,3}(?:[ \xa0]\d{3})*(?:[.,]\d+)?)\s*(Kč|CZK|€|\$)?`
and only group 2 (the numeric part) is used.  The matchers below produce
the group the Python regex engine produces: `List.tails` gives leftmost
search, and candidate extents are enumerated in greedy/backtracking
preference order. -/

/-- Length of the leading digit run. -/
def digitRunLen (u : List Char) : ℕ := (u.takeWhile Char.isDigit).length

/-- Candidate lengths for `\d{1,3}` at the head of `u`, in greedy
preference order (`[d, d-1, …, 1]`, empty when no digit). -/
def dLens (u : List Char) : List ℕ :=
  (List.range (min 3 (digitRunLen u))).reverse.map (· + 1)

/-- Candidate total lengths for `(?:[ \xa0]\d{3})*` at the head of `u`,
in greedy preference order (`[4k, …, 4, 0]`). -/
def thouLens : List Char → List ℕ
  | c :: d1 :: d2 :: d3 :: r =>
    if (c = ' ' ∨ c = ' ') ∧ d1.isDigit ∧ d2.isDigit ∧ d3.isDigit then
      ((thouLens r).map (· + 4)) ++ [0]
    else [0]
  | _ => [0]

/-- Candidate lengths for `(?:[.,]\d+)?` at the head of `u`, in greedy
preference order (decimal part longest-first, then absent). -/
def decLens (u : List Char) : List ℕ :=
  match u with
  | c :: r =>
    if c = '.' ∨ c = ',' then
      ((List.range (digitRunLen r)).reverse.map (fun i => 2 + i)) ++ [0]
    else [0]
  | [] => [0]

/-- All candidate lengths of the signless numeric group
`\d{1,3}(?:[ \xa0]\d{3})*(?:[.,]\d+)?` at the head of `u`, in the backtracking preference order of the regex
engine. -/
def numEnds (u : List Char) : List ℕ :=
  (dLens u).flatMap (fun d =>
    (thouLens (u.drop d)).flatMap (fun t =>
      (decLens (u.drop (d + t))).map (fun e => d + t + e)))

/-- Length of the `[+-]?`-signed numeric group (regex group 2 of the
primary pattern) matching at the head of `u`; greedy, so the first
candidate wins (nothing mandatory follows group 2). -/
def signedNumLen (u : List Char) : Option ℕ :=
  match u with
  | c :: r =>
    if c = '+' ∨ c = '-' then
      match (numEnds r).head? with
      | some e => some (e + 1)
      | none => none
    else (numEnds u).head?
  | [] => none

/-- Length of the optional currency marker `([€$]|Kč|CZK)?` at the head
of `u` (0 when absent). -/
def curLen (u : List Char) : ℕ :=
  match u with
  | c :: _ =>
    if c = '€' ∨ c = '$' then 1
    else if ("Kč".toList).isPrefixOf u then 2
    else if ("CZK".toList).isPrefixOf u then 3
    else 0
  | [] => 0

/-- Pattern `\s*` then the signed numeric group, matched at the head of `v`
(the continuation after the optional currency marker). -/
def numAfterWs (v : List Char) : Option (List Char) :=
  let w := (v.takeWhile isPySpace).length
  (signedNumLen (v.drop w)).map (fun e => (v.drop w).take e)

/-- Group 2 of the primary `normalize_price` pattern for a match starting
at this suffix: optional currency marker, `\s*`, then the signed numeric
group.  When the marker path fails the engine backtracks to the empty
marker. -/
def primAtSuf (u : List Char) : Option (List Char) :=
  let c := curLen u
  if c = 0 then numAfterWs u
  else
    match numAfterWs (u.drop c) with
    | some g => some g
    | none => numAfterWs u

/-- Leftmost search for the primary pattern; returns group 2. -/
def primSearch (l : List Char) : Option (List Char) := l.tails.findSome? primAtSuf

/-- Character class `[\d \xa0\.,]` of the fallback pattern. -/
def m2Class (c : Char) : Bool :=
  c.isDigit ∨ c = ' ' ∨ c = ' ' ∨ c = '.' ∨ c = ','

/-- Match of the fallback pattern `([+-]?\d[\d \xa0\.,]*)` starting at
this suffix. -/
def m2AtSuf : List Char → Option (List Char)
  | [] => none
  | c :: r =>
    if c.isDigit then some (c :: r.takeWhile m2Class)
    else if c = '+' ∨ c = '-' then
      match r with
      | d :: r2 => if d.isDigit then some (c :: d :: r2.takeWhile m2Class) else none
      | [] => none
    else none

/-- Leftmost search for the fallback pattern. -/
def m2Search (l : List Char) : Option (List Char) := l.tails.findSome? m2AtSuf

/-- Python `num.replace("\xa0", "").replace(" ", "").replace(",", ".")`
(source line 97). -/
def sepNorm (num : List Char) : List Char :=
  (num.filter (fun c => ¬(c = ' ' ∨ c = ' '))).map
    (fun c => if c = ',' then '.' else c)

/-- Normalization of an extracted numeric candidate: separator cleanup,
then `float` + two-decimal formatting, falling back to the normalized
string itself when parsing fails (source lines 97–102). -/
def normalizeNum (num : List Char) : String :=
  let n := sepNorm num
  match floatParseCL n with
  | some v => fmt2 v
  | none => String.mk n

/-- Function `normalize_price` (source lines 81–102). -/
def normalize_price : Option String → Option String
  | none => none
  | some text =>
    if text = "" then none
    else
      let t := pyStripL text.toList
      match primSearch t with
      | some num => some (normalizeNum num)
      | none =>
        match m2Search t with
        | some num => some (normalizeNum num)
        | none => some (String.mk t)


/-! ## The parsed HTML document (BeautifulSoup tree)

`Node` models a bs4 parse tree node: either a `NavigableString` or a
`Tag` with a name, attributes (raw attribute strings, as serialized in
the markup) and children.  A whole document is represented by a synthetic
root element (the bs4 `[document]` element) whose children are the top-level
elements; searches (`find_all`, `select_one`, …) cover the
descendants of the root, in document order. -/

inductive Node where
  | text (s : String)
  | elem (tag : String) (attrs : List (String × String)) (children : List Node)

/-- Is this node a `Tag`? -/
def isElem : Node → Bool
  | .elem _ _ _ => true
  | .text _ => false

/-- Does this node have the given tag name? -/
def tagIs (n : Node) (t : String) : Bool :=
  match n with
  | .elem tg _ _ => tg = t
  | .text _ => false

/-- Python `tag.get(key)` — attribute lookup. -/
def getAttr (n : Node) (key : String) : Option String :=
  match n with
  | .elem _ attrs _ => (attrs.find? (fun a => a.1 = key)).map (·.2)
  | .text _ => none

/-- CSS `[key*=sub]` — the attribute exists and contains `sub` as a
(case-sensitive) substring. -/
def attrContains (n : Node) (key sub : String) : Bool :=
  match getAttr n key with
  | some v => containsSubL v.toList sub.toList
  | none => false

mutual
/-- All descendant `NavigableString`s of a node, in document order. -/
def textsOf : Node → List String
  | .text s => [s]
  | .elem _ _ cs => textsOfL cs
def textsOfL : List Node → List String
  | [] => []
  | c :: cs => textsOf c ++ textsOfL cs
end

/-- bs4 `node.get_text(sep, strip=True)`: each descendant string is
stripped, empties are dropped, and the rest are joined with `sep`. -/
def getText (sep : String) (n : Node) : String :=
  String.intercalate sep (((textsOf n).map pyStrip).filter (fun s => ¬(s = "")))

mutual
/-- First descendant element satisfying `p`, in document order
(bs4 `select_one` for the predicates used in this program). -/
def selectFirst (p : Node → Bool) : Node → Option Node
  | .text _ => none
  | .elem _ _ cs => selectFirstL p cs
def selectFirstL (p : Node → Bool) : List Node → Option Node
  | [] => none
  | c :: cs => (if p c then some c else selectFirst p c) <|> selectFirstL p cs
end

mutual
/-- All descendant elements with the given tag name, in document order
(bs4 `find_all(tag)`). -/
def findTags (tag : String) : Node → List Node
  | .text _ => []
  | .elem _ _ cs => findTagsL tag cs
def findTagsL (tag : String) : List Node → List Node
  | [] => []
  | c :: cs => (if tagIs c tag then [c] else []) ++ findTags tag c ++ findTagsL tag cs
end

mutual
/-- All descendant nodes satisfying `p` paired with the list of their
following siblings, in document order (supports bs4
`find_next_sibling`). -/
def findWithTails (p : Node → Bool) : Node → List (Node × List Node)
  | .text _ => []
  | .elem _ _ cs => findWithTailsL p cs
def findWithTailsL (p : Node → Bool) : List Node → List (Node × List Node)
  | [] => []
  | c :: rest =>
    (if p c then [(c, rest)] else []) ++ findWithTails p c ++ findWithTailsL p rest
end

mutual
/-- Flatten a subtree to its nodes in document (preorder) order
(bs4 `next_elements`). -/
def flattenN : Node → List Node
  | .text s => [.text s]
  | .elem t a cs => .elem t a cs :: flattenL cs
def flattenL : List Node → List Node
  | [] => []
  | c :: cs => flattenN c ++ flattenL cs
end

/-- bs4 `tag.string`: follow single children down; the string if the
chain ends at exactly one `NavigableString`, else `None`. -/
def nodeString : Node → Option String
  | .text s => some s
  | .elem _ _ [c] => nodeString c
  | .elem _ _ _ => none

/-! ## `extract_price` (source lines 105–123) -/

/-- Step 2 regex of `extract_price`:
`(\d{1,3}(?:[ \xa0]\d{3})*(?:[.,]\d+)?)[ ]*(Kč|CZK)` matched at the head
of `u`; returns the full match (group 0).  Candidate numeric extents are
tried in backtracking preference order; the space run is deterministic
(a space can never begin the currency token). -/
def kcAtSuf (u : List Char) : Option (List Char) :=
  (numEnds u).findSome? (fun e =>
    let v := u.drop e
    let sp := (v.takeWhile (fun c => c = ' ')).length
    let w := v.drop sp
    if ("Kč".toList).isPrefixOf w then some (u.take (e + sp + 2))
    else if ("CZK".toList).isPrefixOf w then some (u.take (e + sp + 3))
    else none)

/-- Leftmost search for the step 2 price regex. -/
def kcSearch (l : List Char) : Option (List Char) := l.tails.findSome? kcAtSuf

/-- Function `extract_price` (source lines 105–123). -/
def extract_price (soup : Node) : Option String :=
  match selectFirst (fun n => getAttr n "itemprop" = some "price") soup with
  | some el =>
    if tagIs el "meta" then normalize_price (getAttr el "content")
    else normalize_price (some (getText " " el))
  | none =>
    let text := getText " " soup
    match kcSearch text.toList with
    | some g0 => normalize_price (some (String.mk g0))
    | none =>
      match selectFirst (fun n => attrContains n "class" "price" ∨ attrContains n "id" "price") soup with
      | some el => normalize_price (some (getText " " el))
      | none => none

/-! ## `extract_availability` (source lines 126–141) -/

/-- Group 2 position search for the tail `\s*([^\n\r]+)` of the
`Dostupnost` regex: `\s*` is tried greedily (longest first); the group
needs at least one character that is not a newline and then extends
greedily to the end of the line. -/
def grp2At (v : List Char) : Option (List Char) :=
  ((List.range ((v.takeWhile isPySpace).length + 1)).reverse).findSome? (fun w =>
    match v.drop w with
    | c :: r =>
      if ¬(c = '\n' ∨ c = '\r') then
        some (c :: r.takeWhile (fun c => ¬(c = '\n' ∨ c = '\r')))
      else none
    | [] => none)

/-- Match of `Dostupnost\s*[:\-]?\s*([^\n\r]+)` (case-insensitive)
starting at this suffix; returns group 2.  Enumeration follows the
engine: first `\s*` longest-first, then `[:\-]?` present-first, then the
tail. -/
def dostuAtSuf (u : List Char) : Option (List Char) :=
  if ("dostupnost".toList).isPrefixOf (lowerL u) then
    let r := u.drop 10
    ((List.range ((r.takeWhile isPySpace).length + 1)).reverse).findSome? (fun w1 =>
      let v := r.drop w1
      match v with
      | c :: _ =>
        if c = ':' ∨ c = '-' then
          match grp2At (v.drop 1) with
          | some g => some g
          | none => grp2At v
        else grp2At v
      | [] => grp2At v)
  else none

/-- Leftmost search for the `Dostupnost` regex; returns group 2. -/
def dostuSearch (l : List Char) : Option (List Char) := l.tails.findSome? dostuAtSuf

/-- The fixed keyword list of `extract_availability` step 3 (source
line 137). -/
def availKeywords : List String :=
  ["Skladem", "Vyprodáno", "Není skladem", "Do týdne", "Na objednávku",
   "Dostupné", "Available", "Out of stock", "In stock"]

/-- The context regex `.{0,40}` ++ `re.escape(keyword)` ++ `.{0,40}`
(case-insensitive) matched at the head of `u`: a greedy non-newline
context of up to 40 characters, the keyword, then up to 40 further
non-newline characters; returns the full match. -/
def ctxAtSuf (kw : List Char) (u : List Char) : Option (List Char) :=
  ((List.range 41).reverse).findSome? (fun l =>
    if l ≤ u.length ∧ ((u.take l).all (fun c => ¬(c = '\n'))) ∧ iPrefixAt kw (u.drop l) then
      let p := u.drop (l + kw.length)
      let m := min 40 ((p.takeWhile (fun c => ¬(c = '\n'))).length)
      some (u.take (l + kw.length + m))
    else none)

/-- Leftmost search for the context regex. -/
def ctxSearchL (t kw : List Char) : Option (List Char) := t.tails.findSome? (ctxAtSuf kw)

/-- The per-keyword body of the loop in source lines 137–140:
`mm.group(0).strip() if mm else keyword`. -/
def kwBranch (text kw : String) : String :=
  match ctxSearchL text.toList kw.toList with
  | some g => String.mk (pyStripL g)
  | none => kw

/-- The keyword loop of `extract_availability` step 3 (source
lines 137–140). -/
def keywordStep (text : String) : Option String :=
  availKeywords.findSome? (fun kw =>
    if icontainsL text.toList kw.toList then some (kwBranch text kw) else none)

/-- Function `extract_availability` (source lines 126–141). -/
def extract_availability (soup : Node) : Option String :=
  match selectFirst (fun n =>
      getAttr n "itemprop" = some "availability" ∨
      attrContains n "class" "availability" ∨ attrContains n "id" "availability") soup with
  | some el => some (getText " " el)
  | none =>
    let text := getText "\n" soup
    match dostuSearch text.toList with
    | some g2 => some (String.mk (pyStripL g2))
    | none => keywordStep text

/-! ## `extract_details` (source lines 144–194)

The Python accumulator `details` is empty at every cascade-step
boundary: inside the heading loop and the specification loop the list is
returned as soon as it becomes non-empty, so each step is modeled as an
`Option (List String)`-valued function and the cascade as a first-success
chain.  Only the final fallback path reaches the deduplication loop of
source lines 186–194. -/

/-- Is this heading matched by
`find_all(header_tag, string=re.compile("podrobnost", re.IGNORECASE))`?
The tag name must match and `tag.string` must contain "podrobnost"
case-insensitively. -/
def isHdrMatch (tag : String) (n : Node) : Bool :=
  tagIs n tag &&
    (match nodeString n with
     | some s => icontainsL s.toList ("podrobnost".toList)
     | none => false)

/-- The `get_text(" ", strip=True)` text of every `li` descendant, in document
order. -/
def liTexts (n : Node) : List String := (findTags "li" n).map (getText " ")

/-- Processing of one matched heading (source lines 150–169): if the
next sibling element is a `ul`/`ol` with list items, their texts win;
otherwise walk up to 8 following sibling elements collecting non-empty
texts. -/
def hdrStep (sibs : List Node) : Option (List String) :=
  let elemSibs := sibs.filter isElem
  let ulLis :=
    match elemSibs.head? with
    | some nx => if tagIs nx "ul" ∨ tagIs nx "ol" then liTexts nx else []
    | none => []
  if ¬(ulLis = []) then some ulLis
  else
    let walk := ((elemSibs.take 8).map (getText " ")).filter (fun s => ¬(s = ""))
    if ¬(walk = []) then some walk else none

/-- Step 1 of `extract_details`: headings `h1`…`h6` in that order, the candidates of each
heading in document order, first non-empty collection wins
(source lines 147–169). -/
def headingStep (soup : Node) : Option (List String) :=
  ["h1", "h2", "h3", "h4", "h5", "h6"].findSome? (fun tag =>
    (findWithTails (isHdrMatch tag) soup).findSome? (fun pr => hdrStep pr.2))

/-- Does this string match
`re.compile("(specifikace|specification|parametr|parameters)", re.IGNORECASE)`? -/
def specPred (s : String) : Bool :=
  icontainsL s.toList ("specifikace".toList) ∨ icontainsL s.toList ("specification".toList) ∨
  icontainsL s.toList ("parametr".toList) ∨ icontainsL s.toList ("parameters".toList)

mutual
/-- All `NavigableString`s matching `specPred`, in document order, each
paired with the forward document-order continuation of its parent (the descendants
of the parent, then everything after the parent) — what
`parent.find_next(...)` searches. -/
def specParentsN : Node → List Node → List (Node × List Node)
  | .text _, _ => []
  | .elem t a cs, after => specParentsL (.elem t a cs) (flattenL cs ++ after) cs after
def specParentsL (par : Node) (contPar : List Node) : List Node → List Node → List (Node × List Node)
  | [], _ => []
  | .text s :: rest, after =>
    (if specPred s then [(par, contPar)] else []) ++ specParentsL par contPar rest after
  | .elem t a cs :: rest, after =>
    specParentsN (.elem t a cs) (flattenL rest ++ after) ++ specParentsL par contPar rest after
end

/-- Step 2 of `extract_details` (source lines 171–180): for the first 3
specification strings, `parent.find_next("ul")`, collecting its list
item texts; first non-empty collection wins. -/
def specStep (soup : Node) : Option (List String) :=
  ((specParentsN soup []).take 3).findSome? (fun pr =>
    match pr.2.find? (fun n => tagIs n "ul") with
    | some ul =>
      let lis := liTexts ul
      if ¬(lis = []) then some lis else none
    | none => none)

/-- Step 3 of `extract_details` (source lines 182–185): the non-empty
texts of the first 50 `li` elements on the page. -/
def fallbackLis (soup : Node) : List String :=
  (((findTags "li" soup).take 50).map (getText " ")).filter (fun s => ¬(s = ""))

/-- The deduplication loop of source lines 186–194: collapse whitespace,
drop empties, keep the first occurrence of each collapsed entry. -/
def postprocessAux : List String → List String → List String
  | [], _ => []
  | d :: rest, seen =>
    let d2 := collapseWs d
    if ¬(d2 = "") ∧ ¬(d2 ∈ seen) then d2 :: postprocessAux rest (d2 :: seen)
    else postprocessAux rest seen

/-- Function `postprocessAux` run from an empty seen set. -/
def postprocess (l : List String) : List String := postprocessAux l []

/-- Function `extract_details` (source lines 144–194). -/
def extract_details (soup : Node) : List String :=
  match headingStep soup with
  | some l => l
  | none =>
    match specStep soup with
    | some l => l
    | none => postprocess (fallbackLis soup)

/-! ## Snapshots, reports and the differ (source lines 198–246) -/

/-- A snapshot of one page: the extracted fields plus the extraction
timestamp (source line 258). -/
structure Snapshot where
  price : Option String
  availability : Option String
  details : List String
  checked_at : String
deriving DecidableEq

/-- The result of `summarize_changes` (source lines 199–205, 246). -/
structure Report where
  changed : Bool
  changes : List String
  old : Option Snapshot
  new : Snapshot
deriving DecidableEq

/-- Python `x or ""` for an optional string. -/
def orEmpty (o : Option String) : String := o.getD ""

/-- Python string interpolation of an `Optional[str]` (`None` prints as
`"None"`). -/
def pyShow (o : Option String) : String :=
  match o with
  | none => "None"
  | some s => s

/-- The price change message (source lines 217–227): the base message,
plus the signed percentage when both prices parse as floats and the old
one is nonzero.  The `try`/`except` around the parse means a parse
failure on either side silently drops the suffix. -/
def priceMsg (op np : Option String) : String :=
  let base := "Cena: " ++ pyShow op ++ " → " ++ pyShow np
  match op, np with
  | some os, some nps =>
    match floatParse os, floatParse nps with
    | some a, some b =>
      if ¬a.isZero then
        base ++ " (" ++ fmtPctSigned ((b.sub a).div a).mul100 ++ "%)"
      else base
    | _, _ => base
  | _, _ => base

/-- The price comparison of source lines 213–227. -/
def priceChangesOf (o n : Snapshot) : List String :=
  if ¬(orEmpty o.price = orEmpty n.price) then [priceMsg o.price n.price] else []

/-- The availability comparison of source lines 230–232. -/
def availChangesOf (o n : Snapshot) : List String :=
  if ¬(orEmpty o.availability = orEmpty n.availability) then
    ["Dostupnost: " ++ pyShow o.availability ++ " → " ++ pyShow n.availability]
  else []

/-- Python `added = [d for d in new_det if d not in old_det]` (source line 237). -/
def detailsAdded (old_det new_det : List String) : List String :=
  new_det.filter (fun d => ¬(old_det.contains d))

/-- Python `removed = [d for d in old_det if d not in new_det]` (source
line 238). -/
def detailsRemoved (old_det new_det : List String) : List String :=
  old_det.filter (fun d => ¬(new_det.contains d))

/-- The added-details message of source lines 239–241. -/
def addedChangesOf (o n : Snapshot) : List String :=
  let added := detailsAdded o.details n.details
  if ¬(added = []) then
    ["Přidáno v podrobnostech: " ++ String.intercalate "; " (added.take 10)]
  else []

/-- The removed-details message of source lines 242–244. -/
def removedChangesOf (o n : Snapshot) : List String :=
  let removed := detailsRemoved o.details n.details
  if ¬(removed = []) then
    ["Odebráno v podrobnostech: " ++ String.intercalate "; " (removed.take 10)]
  else []

/-- Function `summarize_changes` (source lines 198–246).  With a prior snapshot,
the change list is the concatenation of the four per-field comparisons
in source order (price, availability, added, removed); `changed` was set
exactly when some comparison appended a message.  `checked_at` is never
read. -/
def summarize_changes (old : Option Snapshot) (new : Snapshot) : Report :=
  match old with
  | none =>
    { changed := true,
      changes := ["Žádný předchozí záznam — uloženo jako výchozí stav."],
      old := none, new := new }
  | some o =>
    let changes :=
      priceChangesOf o new ++ availChangesOf o new ++
      addedChangesOf o new ++ removedChangesOf o new
    { changed := ¬changes.isEmpty, changes := changes, old := some o, new := new }

/-! ## State store and `check_page` (source lines 51–70 and 250–266) -/

/-- The SQLite table `page_state`, modeled as an association list from
URL to the parsed stored snapshot. -/
abbrev Store := List (String × Snapshot)

/-- Function `load_state` (source lines 51–59): the stored snapshot for the URL,
or `None`. -/
def load_state (store : Store) (url : String) : Option Snapshot :=
  (List.find? (fun r => r.1 = url) store).map (·.2)

/-- Function `save_state` (source lines 62–70): upsert of the row for the URL.  Note
that `check_page` never actually reaches this function — see
`check_page` below. -/
def save_state (store : Store) (url : String) (snapshot : Snapshot) : Store :=
  match store with
  | [] => [(url, snapshot)]
  | r :: rest => if r.1 = url then (url, snapshot) :: rest else r :: save_state rest url snapshot

/-- Function `check_page` (source lines 250–266).  `fetched` is the result of
`fetch_html` + `BeautifulSoup` (an exception or a parsed tree); `now` is
`datetime.utcnow().isoformat() + "Z"`.  The result carries the summary
and the resulting store, or the propagated exception message.

Faithfulness note: the parameter `save_state: bool = True` of the Python
function shadows the module-level function `save_state`, so the guarded
call `save_state(url, new_snapshot)` on line 264 applies the boolean
`True` and raises `TypeError: bool object is not callable`.  The store
is therefore never written, and with the save flag set the function
raises instead of returning the summary. -/
def check_page (url : String) (fetched : Except String Node) (store : Store)
    (save_state : Bool) (now : String) : Except String (Report × Store) :=
  match fetched with
  | .error e => .error e
  | .ok soup =>
    let price := extract_price soup
    let availability := extract_availability soup
    let details := extract_details soup
    let new_snapshot : Snapshot :=
      { price := price, availability := availability, details := details, checked_at := now }
    let old_snapshot := load_state store url
    let summary := summarize_changes old_snapshot new_snapshot
    if save_state then .error "TypeError: bool object is not callable"
    else .ok (summary, store)

/-! ## The per-URL batch loop of `__main__` (source lines 277–296) -/

/-- One entry of the `results` dict: a change report or an error record
(`results[url] = {"error": str(e)}`). -/
inductive UrlResult where
  | rep (r : Report)
  | err (msg : String)
deriving DecidableEq

/-- Python dict assignment `results[url] = v`: replace in place if the
key exists, else append (insertion order preserved). -/
def dictUpsert (k : String) (v : UrlResult) : List (String × UrlResult) → List (String × UrlResult)
  | [] => [(k, v)]
  | r :: rest => if r.1 = k then (k, v) :: rest else r :: dictUpsert k v rest

/-- The `for url in args.urls` loop (source lines 278–296): each URL is
checked with `save_state=not args.no_save`; an exception is caught at
the per-URL boundary and recorded as an error entry, and the loop
continues with the next URL. -/
def runBatchAux (no_save : Bool) (now : String) :
    List (String × Except String Node) → List (String × UrlResult) → Store →
    List (String × UrlResult) × Store
  | [], results, store => (results, store)
  | (url, fetched) :: rest, results, store =>
    match check_page url fetched store (!no_save) now with
    | .ok (res, store') => runBatchAux no_save now rest (dictUpsert url (.rep res) results) store'
    | .error e => runBatchAux no_save now rest (dictUpsert url (.err e) results) store

/-- The whole batch run over a list of URLs with their fetch results. -/
def runBatch (pages : List (String × Except String Node)) (store : Store)
    (no_save : Bool) (now : String) : List (String × UrlResult) × Store :=
  runBatchAux no_save now pages [] store

/-- The outcome the loop records for a single page against a given
store (used to state batch isolation). -/
def pageOutcome (p : String × Except String Node) (store : Store)
    (no_save : Bool) (now : String) : UrlResult :=
  match check_page p.1 p.2 store (!no_save) now with
  | .ok (res, _) => .rep res
  | .error e => .err e

/-! # Theorems -/

/-! ## Shared helper lemmas -/

/-- Filtering a list by non-membership in itself gives the empty list. -/
theorem filter_not_contains_self (l : List String) :
    l.filter (fun d => ¬(l.contains d)) = [] := by
  rw [List.filter_eq_nil_iff]
  intro a ha
  simp [ha]

/-- A list diffed against itself adds nothing. -/
theorem detailsAdded_self (l : List String) : detailsAdded l l = [] :=
  filter_not_contains_self l

/-- A list diffed against itself removes nothing. -/
theorem detailsRemoved_self (l : List String) : detailsRemoved l l = [] :=
  filter_not_contains_self l

/-! ## C6 — first-run report -/

/-- C6: comparing any new snapshot against an absent prior snapshot
yields `changed = true` and exactly the single "no prior record" change
entry, with no per-field comparison (the result does not depend on the
fields of the new snapshot). -/
theorem c6_first_run (new : Snapshot) :
    summarize_changes none new =
      { changed := true,
        changes := ["Žádný předchozí záznam — uloženo jako výchozí stav."],
        old := none, new := new } := rfl

/-! ## C1 — persisting `check_page` raises instead of saving -/

/-- C1 (code bug): for every URL whose page fetches and parses
successfully, `check_page` with the persist flag `true` (the default)
does not return the report of the differ and does not write the snapshot to
the store: the parameter `save_state` shadows the function
`save_state`, so line 264 calls the boolean `True` and the call raises
`TypeError`, leaving the store unwritten. -/
theorem c1_persist_raises (url : String) (doc : Node) (store : Store) (now : String) :
    check_page url (.ok doc) store true now =
      .error "TypeError: bool object is not callable" := rfl

/-! ## C3 — idempotence / the differ never compares `checked_at` -/

/-- C3 (counterexample): running the Checker twice in succession against
an unchanged page does not yield `changed = false` on the second run.
With the persist flag (the default) the first run already raises
`TypeError` and stores nothing; and since no run ever persists anything
(the store returned by a no-save run is unchanged), a second run still
sees no prior record and reports `changed = true`. -/
theorem c3_counterexample :
    (check_page "http://e/p" (.ok (.elem "[document]" [] [.elem "html" [] []])) [] true "t1" =
      .error "TypeError: bool object is not callable") ∧
    ((check_page "http://e/p" (.ok (.elem "[document]" [] [.elem "html" [] []])) [] false "t1").map
        (fun pr => pr.2) = .ok []) ∧
    ((check_page "http://e/p" (.ok (.elem "[document]" [] [.elem "html" [] []])) [] false "t2").map
        (fun pr => pr.1.changed) = .ok true) :=
  ⟨rfl, rfl, rfl⟩

/-- C3 (amended): the differ-level half of the claim holds: for any two
snapshots that agree on price, availability and details — regardless of
their `checked_at` fields, which `summarize_changes` never reads — the
differ reports `changed = false` with an empty change list.  The
end-to-end two-run formulation fails only because of the `save_state`
shadowing bug (claim C1). -/
theorem c3_differ_ignores_checked_at (o n : Snapshot)
    (hp : o.price = n.price) (ha : o.availability = n.availability)
    (hd : o.details = n.details) :
    summarize_changes (some o) n =
      { changed := false, changes := [], old := some o, new := n } := by
  simp [summarize_changes, priceChangesOf, availChangesOf, addedChangesOf,
    removedChangesOf, hp, ha, hd, detailsAdded_self, detailsRemoved_self]

/-- Witness for `c3_differ_ignores_checked_at`: two concrete snapshots
that differ only in `checked_at`. -/
theorem c3_witness :
    summarize_changes
        (some ⟨some "10.00", some "Skladem", ["a"], "2024-01-01T00:00:00Z"⟩)
        ⟨some "10.00", some "Skladem", ["a"], "2024-01-02T00:00:00Z"⟩ =
      { changed := false, changes := [],
        old := some ⟨some "10.00", some "Skladem", ["a"], "2024-01-01T00:00:00Z"⟩,
        new := ⟨some "10.00", some "Skladem", ["a"], "2024-01-02T00:00:00Z"⟩ } :=
  c3_differ_ignores_checked_at _ _ rfl rfl rfl

/-! ## C5 — null/empty equivalence in the price and availability diff -/

/-- C5: the differ compares price and availability under the
`x or ""` equivalence: a `None` on one side and `""` on the other is no
change; a transition between `None` and a non-empty value fires and is
rendered "old → new" with `None` printed literally (for example
"None → Skladem"). -/
theorem c5_null_empty_equivalence :
    (∀ o n : Snapshot, o.availability = none → n.availability = some "" →
        availChangesOf o n = []) ∧
    (∀ o n : Snapshot, o.availability = some "" → n.availability = none →
        availChangesOf o n = []) ∧
    (∀ o n : Snapshot, o.price = none → n.price = some "" →
        priceChangesOf o n = []) ∧
    (∀ o n : Snapshot, o.price = some "" → n.price = none →
        priceChangesOf o n = []) ∧
    (∀ o n : Snapshot, o.availability = none → n.availability = some "Skladem" →
        availChangesOf o n = ["Dostupnost: None → Skladem"]) ∧
    (∀ (o n : Snapshot) (v : String), ¬(v = "") → o.availability = none →
        n.availability = some v →
        availChangesOf o n = ["Dostupnost: None → " ++ v]) ∧
    (∀ (o n : Snapshot) (v : String), ¬(v = "") → o.availability = some v →
        n.availability = none →
        availChangesOf o n = ["Dostupnost: " ++ v ++ " → None"]) := by
  refine ⟨?_, ?_, ?_, ?_, ?_, ?_, ?_⟩
  · intro o n h1 h2; simp [availChangesOf, h1, h2, orEmpty]
  · intro o n h1 h2; simp [availChangesOf, h1, h2, orEmpty]
  · intro o n h1 h2; simp [priceChangesOf, h1, h2, orEmpty]
  · intro o n h1 h2; simp [priceChangesOf, h1, h2, orEmpty]
  · intro o n h1 h2; simp [availChangesOf, h1, h2, orEmpty, pyShow]
  · intro o n v hv h1 h2
    simp [availChangesOf, h1, h2, orEmpty, pyShow, Ne.symm hv]
  · intro o n v hv h1 h2
    simp [availChangesOf, h1, h2, orEmpty, pyShow, hv, String.append_assoc]

/-- Witness for `c5_null_empty_equivalence` at concrete snapshots. -/
theorem c5_witness :
    availChangesOf ⟨none, none, [], "t1"⟩ ⟨none, some "", [], "t2"⟩ = [] ∧
    availChangesOf ⟨none, none, [], "t1"⟩ ⟨none, some "Skladem", [], "t2"⟩ =
      ["Dostupnost: None → Skladem"] :=
  ⟨c5_null_empty_equivalence.1 _ _ rfl rfl,
   c5_null_empty_equivalence.2.2.2.2.1 _ _ rfl rfl⟩

/-! ## C7 — the details diff -/

/-- C7: `added` is exactly the entries of the new details list not
present (by string equality) in the old one, in the order of the new list
(it is a sublist of the new list), and symmetrically for `removed`;
when non-empty, each direction emits one message joining the first at
most 10 entries with "; ".  For `old = ["A","B"]`, `new = ["B","C"]`
this gives `added = ["C"]` and `removed = ["A"]`. -/
theorem c7_details_diff :
    (∀ (old_det new_det : List String) (d : String),
        d ∈ detailsAdded old_det new_det ↔ (d ∈ new_det ∧ ¬(d ∈ old_det))) ∧
    (∀ old_det new_det : List String, List.Sublist (detailsAdded old_det new_det) new_det) ∧
    (∀ (old_det new_det : List String) (d : String),
        d ∈ detailsRemoved old_det new_det ↔ (d ∈ old_det ∧ ¬(d ∈ new_det))) ∧
    (∀ old_det new_det : List String, List.Sublist (detailsRemoved old_det new_det) old_det) ∧
    (∀ o n : Snapshot, ¬(detailsAdded o.details n.details = []) →
        addedChangesOf o n = ["Přidáno v podrobnostech: " ++
          String.intercalate "; " ((detailsAdded o.details n.details).take 10)]) ∧
    (∀ o n : Snapshot, ¬(detailsRemoved o.details n.details = []) →
        removedChangesOf o n = ["Odebráno v podrobnostech: " ++
          String.intercalate "; " ((detailsRemoved o.details n.details).take 10)]) ∧
    (detailsAdded ["A", "B"] ["B", "C"] = ["C"] ∧
      detailsRemoved ["A", "B"] ["B", "C"] = ["A"]) ∧
    (summarize_changes (some ⟨none, none, ["A", "B"], "t1"⟩)
        ⟨none, none, ["B", "C"], "t2"⟩).changes =
      ["Přidáno v podrobnostech: C", "Odebráno v podrobnostech: A"] := by
  refine ⟨?_, ?_, ?_, ?_, ?_, ?_, by decide, by decide⟩
  · intro old_det new_det d; simp [detailsAdded]
  · intro old_det new_det; exact List.filter_sublist _
  · intro old_det new_det d; simp [detailsRemoved]
  · intro old_det new_det; exact List.filter_sublist _
  · intro o n h; simp [addedChangesOf, h]
  · intro o n h; simp [removedChangesOf, h]

/-- Witness for `c7_details_diff`: the added-details message at the
concrete spec example. -/
theorem c7_witness :
    addedChangesOf ⟨none, none, ["A", "B"], "t1"⟩ ⟨none, none, ["B", "C"], "t2"⟩ =
      ["Přidáno v podrobnostech: C"] :=
  (c7_details_diff.2.2.2.2.1 ⟨none, none, ["A", "B"], "t1"⟩
    ⟨none, none, ["B", "C"], "t2"⟩ (by decide)).trans (by decide)

/-! ## C8 — the percentage suffix on price changes -/

/-- C8: when a price change fires and both price strings parse with a
nonzero old value, the message carries the signed two-decimal percentage
`(new - old) / old * 100`; when either side fails to parse the suffix is
simply omitted (the comparison is total and never fails).  For old
"100.00" and new "150.00" the message contains "+50.00%". -/
theorem c8_price_percentage :
    (∀ (o n : Snapshot) (os nps : String) (a b : Frac),
        o.price = some os → n.price = some nps →
        floatParse os = some a → floatParse nps = some b → a.isZero = false →
        ¬(orEmpty o.price = orEmpty n.price) →
        priceChangesOf o n =
          ["Cena: " ++ os ++ " → " ++ nps ++ " (" ++
            fmtPctSigned ((b.sub a).div a).mul100 ++ "%)"]) ∧
    (∀ (o n : Snapshot) (os nps : String),
        o.price = some os → n.price = some nps → floatParse os = none →
        ¬(orEmpty o.price = orEmpty n.price) →
        priceChangesOf o n = ["Cena: " ++ os ++ " → " ++ nps]) ∧
    (∀ (o n : Snapshot) (os nps : String),
        o.price = some os → n.price = some nps → floatParse nps = none →
        ¬(orEmpty o.price = orEmpty n.price) →
        priceChangesOf o n = ["Cena: " ++ os ++ " → " ++ nps]) ∧
    (priceChangesOf ⟨some "100.00", none, [], "t1"⟩ ⟨some "150.00", none, [], "t2"⟩ =
      ["Cena: 100.00 → 150.00 (+50.00%)"]) ∧
    fmtPctSigned (((⟨15000, 100⟩ : Frac).sub ⟨10000, 100⟩).div ⟨10000, 100⟩).mul100 =
      "+50.00" := by
  refine ⟨?_, ?_, ?_, by decide, by decide⟩
  · intro o n os nps a b ho hn hpa hpb hz hne
    rw [ho, hn] at hne
    simp [priceChangesOf, priceMsg, ho, hn, hpa, hpb, hz, hne, pyShow]
  · intro o n os nps ho hn hpa hne
    rw [ho, hn] at hne
    simp [priceChangesOf, priceMsg, ho, hn, hpa, hne, pyShow]
  · intro o n os nps ho hn hpb hne
    rw [ho, hn] at hne
    cases hpa : floatParse os <;>
      simp [priceChangesOf, priceMsg, ho, hn, hpa, hpb, hne, pyShow]

/-- Witness for `c8_price_percentage` at the concrete prices from the spec. -/
theorem c8_witness :
    priceChangesOf ⟨some "100.00", none, [], "t1"⟩ ⟨some "150.00", none, [], "t2"⟩ =
      ["Cena: 100.00 → 150.00 (+50.00%)"] :=
  (c8_price_percentage.1 ⟨some "100.00", none, [], "t1"⟩ ⟨some "150.00", none, [], "t2"⟩
    "100.00" "150.00" ⟨10000, 100⟩ ⟨15000, 100⟩ rfl rfl (by decide) (by decide)
    (by decide) (by decide)).trans (by decide)

/-! ## C4 — `normalize_price` vectors and no-raise behavior -/

/-- A list with no digit has an empty digit run. -/
theorem noDigit_takeWhile {u : List Char} (h : ∀ c ∈ u, c.isDigit = false) :
    u.takeWhile Char.isDigit = [] := by
  cases u with
  | nil => rfl
  | cons c r => simp [List.takeWhile_cons, h c (by simp)]

/-- The numeric group cannot match in a digit-free list. -/
theorem noDigit_numEnds {u : List Char} (h : ∀ c ∈ u, c.isDigit = false) :
    numEnds u = [] := by
  simp [numEnds, dLens, digitRunLen, noDigit_takeWhile h]

/-- The signed numeric group cannot match in a digit-free list. -/
theorem noDigit_signedNumLen {u : List Char} (h : ∀ c ∈ u, c.isDigit = false) :
    signedNumLen u = none := by
  match u with
  | [] => rfl
  | c :: r =>
    have hr : ∀ x ∈ r, x.isDigit = false := fun x hx => h x (List.mem_cons_of_mem _ hx)
    simp [signedNumLen, noDigit_numEnds hr, noDigit_numEnds h]

/-- Helper `numAfterWs` fails on a digit-free list. -/
theorem noDigit_numAfterWs {v : List Char} (hv : ∀ c ∈ v, c.isDigit = false) :
    numAfterWs v = none := by
  simp only [numAfterWs]
  rw [noDigit_signedNumLen (fun x hx => hv x (List.mem_of_mem_drop hx))]
  rfl

/-- The primary pattern cannot match at any position of a digit-free
list. -/
theorem noDigit_primAtSuf {u : List Char} (h : ∀ c ∈ u, c.isDigit = false) :
    primAtSuf u = none := by
  have h1 := noDigit_numAfterWs h
  have h2 : numAfterWs (u.drop (curLen u)) = none :=
    noDigit_numAfterWs (fun x hx => h x (List.mem_of_mem_drop hx))
  simp [primAtSuf, h1, h2]

/-- The primary search fails on a digit-free list. -/
theorem noDigit_primSearch {t : List Char} (h : ∀ c ∈ t, c.isDigit = false) :
    primSearch t = none := by
  rw [primSearch, List.findSome?_eq_none_iff]
  intro u hu
  obtain ⟨s, rfl⟩ := (List.mem_tails _ _).mp hu
  exact noDigit_primAtSuf (fun c hc => h c (List.mem_append_right s hc))

/-- The fallback pattern cannot match at any position of a digit-free
list. -/
theorem noDigit_m2AtSuf {u : List Char} (h : ∀ c ∈ u, c.isDigit = false) :
    m2AtSuf u = none := by
  match u with
  | [] => rfl
  | c :: r =>
    have hc := h c (by simp)
    match r with
    | [] => simp [m2AtSuf, hc]
    | d :: r2 =>
      have hd := h d (by simp)
      simp [m2AtSuf, hc, hd]

/-- The fallback search fails on a digit-free list. -/
theorem noDigit_m2Search {t : List Char} (h : ∀ c ∈ t, c.isDigit = false) :
    m2Search t = none := by
  rw [m2Search, List.findSome?_eq_none_iff]
  intro u hu
  obtain ⟨s, rfl⟩ := (List.mem_tails _ _).mp hu
  exact noDigit_m2AtSuf (fun c hc => h c (List.mem_append_right s hc))

/-- C4: the `normalize_price` contract: the test vectors from the spec hold;
any digit-free input comes back as the trimmed original text (or `None`
when empty); and whenever the normalized numeric candidate fails to
parse as a float, the normalized string itself is returned — the
function is total and never raises. -/
theorem c4_normalize_price :
    normalize_price none = none ∧
    normalize_price (some "") = none ∧
    normalize_price (some "1 234,50 Kč") = some "1234.50" ∧
    normalize_price (some "call us") = some "call us" ∧
    (∀ t : String, (∀ c ∈ t.toList, c.isDigit = false) →
        normalize_price (some t) = if t = "" then none else some (pyStrip t)) ∧
    (∀ num : List Char, floatParseCL (sepNorm num) = none →
        normalizeNum num = String.mk (sepNorm num)) := by
  refine ⟨rfl, rfl, by decide, by decide, ?_, ?_⟩
  · intro t ht
    by_cases h0 : t = ""
    · simp [normalize_price, h0]
    · have hs : ∀ c ∈ pyStripL t.toList, c.isDigit = false := fun c hc => by
        have h1 : c ∈ (t.toList.dropWhile isPySpace).reverse.dropWhile isPySpace := by
          simpa [pyStripL] using hc
        have h2 : c ∈ t.toList :=
          (List.dropWhile_sublist _).subset
            (by
              have := (List.dropWhile_sublist (l := (t.toList.dropWhile isPySpace).reverse)
                (p := isPySpace)).subset h1
              simpa using this)
        exact ht c h2
      have hps := noDigit_primSearch hs
      have hms := noDigit_m2Search hs
      simp only [String.toList] at hps hms
      simp [normalize_price, h0, hps, hms, pyStrip, String.toList]
  · intro num h
    simp [normalizeNum, h]

/-- Witness for `c4_normalize_price`: the digit-free input "call us"
and a numeric candidate ("1.2.3" after normalization) that fails to
parse. -/
theorem c4_witness :
    ((∀ c ∈ "call us".toList, c.isDigit = false) ∧
      normalize_price (some "call us") =
        if "call us" = "" then none else some (pyStrip "call us")) ∧
    (floatParseCL (sepNorm "1.2.3".toList) = none ∧
      normalizeNum "1.2.3".toList = String.mk (sepNorm "1.2.3".toList)) :=
  ⟨⟨by decide, c4_normalize_price.2.2.2.2.1 "call us" (by decide)⟩,
   ⟨by decide, c4_normalize_price.2.2.2.2.2 "1.2.3".toList (by decide)⟩⟩

/-! ## C2 — the details-list invariant -/

/-- Every word produced by `splitWsAux` (from a whitespace-free
accumulator) is non-empty and whitespace-free. -/
theorem splitWsAux_words :
    ∀ (cs acc : List Char), (∀ c ∈ acc, isPySpace c = false) →
      ∀ w ∈ splitWsAux cs acc, ¬(w = []) ∧ ∀ c ∈ w, isPySpace c = false := by
  intro cs
  induction cs with
  | nil =>
    intro acc hacc w hw
    by_cases h : acc = []
    · simp [splitWsAux, h] at hw
    · simp [splitWsAux, h] at hw
      subst hw
      refine ⟨by simpa using h, fun c hc => hacc c (by simpa using hc)⟩
  | cons c rest ih =>
    intro acc hacc w hw
    by_cases hsp : isPySpace c = true
    · by_cases h : acc = []
      · rw [splitWsAux] at hw
        simp [hsp, h] at hw
        exact ih [] (by simp) w hw
      · rw [splitWsAux] at hw
        simp [hsp, h] at hw
        rcases hw with hw | hw
        · subst hw
          refine ⟨by simpa using h, fun x hx => hacc x (by simpa using hx)⟩
        · exact ih [] (by simp) w hw
    · rw [splitWsAux] at hw
      simp [hsp] at hw
      refine ih (c :: acc) ?_ w hw
      intro x hx
      rcases List.mem_cons.mp hx with rfl | hx
      · simpa using hsp
      · exact hacc x hx

/-- Consuming a whitespace-free chunk shifts it into the accumulator. -/
theorem splitWsAux_chunk :
    ∀ (w : List Char), (∀ c ∈ w, isPySpace c = false) →
      ∀ (cs acc : List Char), splitWsAux (w ++ cs) acc = splitWsAux cs (w.reverse ++ acc) := by
  intro w
  induction w with
  | nil => intro _ cs acc; simp
  | cons c w' ih =>
    intro hw cs acc
    have hc : isPySpace c = false := hw c (by simp)
    rw [List.cons_append, splitWsAux]
    simp only [hc]
    rw [ih (fun x hx => hw x (List.mem_cons_of_mem _ hx)) cs (c :: acc)]
    simp

/-- Splitting the space-join of non-empty whitespace-free words gives
the words back. -/
theorem splitWsAux_joinSpace :
    ∀ ws : List (List Char),
      (∀ w ∈ ws, ¬(w = []) ∧ ∀ c ∈ w, isPySpace c = false) →
      splitWsAux (joinSpace ws) [] = ws := by
  intro ws
  induction ws with
  | nil => intro _; rfl
  | cons w ws ih =>
    intro h
    obtain ⟨hw0, hwf⟩ := h w (by simp)
    cases ws with
    | nil =>
      show splitWsAux (joinSpace [w]) [] = [w]
      have : joinSpace [w] = w ++ [] := by simp [joinSpace]
      rw [this, splitWsAux_chunk w hwf [] []]
      simp [splitWsAux, hw0]
    | cons w2 ws' =>
      show splitWsAux (w ++ ' ' :: joinSpace (w2 :: ws')) [] = w :: w2 :: ws'
      rw [splitWsAux_chunk w hwf (' ' :: joinSpace (w2 :: ws')) []]
      rw [splitWsAux]
      have hne : ¬(w.reverse ++ [] = []) := by simpa using hw0
      simp only [show isPySpace ' ' = true from rfl, if_true, hne, if_false]
      rw [ih (fun x hx => h x (List.mem_cons_of_mem _ hx))]
      simp

/-- Collapsing internal whitespace is idempotent. -/
theorem collapseWs_idem (s : String) : collapseWs (collapseWs s) = collapseWs s := by
  show String.mk (joinSpace (splitWsAux (String.mk (joinSpace (splitWsAux s.toList []))).toList [])) = _
  have h1 : (String.mk (joinSpace (splitWsAux s.toList []))).toList
      = joinSpace (splitWsAux s.toList []) := rfl
  rw [h1, splitWsAux_joinSpace _ (splitWsAux_words s.toList [] (by simp))]
  rfl

/-- Every entry surviving the deduplication loop is non-empty,
whitespace-collapsed, outside the seen set, and the output has no
duplicates. -/
theorem postprocessAux_invariant :
    ∀ (l seen : List String),
      (∀ s ∈ postprocessAux l seen,
          ¬(s = "") ∧ collapseWs s = s ∧ ¬(s ∈ seen)) ∧
      (postprocessAux l seen).Nodup := by
  intro l
  induction l with
  | nil => intro seen; simp [postprocessAux]
  | cons d rest ih =>
    intro seen
    rw [postprocessAux]
    by_cases hc : ¬(collapseWs d = "") ∧ ¬(collapseWs d ∈ seen)
    · simp only [hc, and_self, if_true]
      obtain ⟨ihm, ihn⟩ := ih (collapseWs d :: seen)
      constructor
      · intro s hs
        rcases List.mem_cons.mp hs with rfl | hs
        · exact ⟨hc.1, collapseWs_idem d, hc.2⟩
        · obtain ⟨h1, h2, h3⟩ := ihm s hs
          exact ⟨h1, h2, fun hx => h3 (List.mem_cons_of_mem _ hx)⟩
      · refine List.nodup_cons.mpr ⟨fun hx => ?_, ihn⟩
        exact (ihm _ hx).2.2 (by simp)
    · simp only [hc, if_false]
      obtain ⟨ihm, ihn⟩ := ih seen
      exact ⟨fun s hs => ihm s hs, ihn⟩

/-- The output of the deduplication loop is a sublist of the collapsed
input: entry order follows the (first-seen) order of the input. -/
theorem postprocessAux_sublist :
    ∀ (l seen : List String),
      List.Sublist (postprocessAux l seen) (l.map collapseWs) := by
  intro l
  induction l with
  | nil => intro seen; simp [postprocessAux]
  | cons d rest ih =>
    intro seen
    rw [postprocessAux, List.map_cons]
    by_cases hc : ¬(collapseWs d = "") ∧ ¬(collapseWs d ∈ seen)
    · simp only [hc, and_self, if_true]
      exact List.Sublist.cons₂ _ (ih (collapseWs d :: seen))
    · simp only [hc, if_false]
      exact List.Sublist.cons _ (ih seen)

/-- A page whose details come from the heading-adjacent list path:
`<h2>Podrobnosti</h2>` followed by `<ul><li>A</li><li>A</li><li></li></ul>`. -/
def dupDetailsPage : Node :=
  .elem "[document]" [] [.elem "html" [] [.elem "body" [] [
    .elem "h2" [] [.text "Podrobnosti"],
    .elem "ul" [] [.elem "li" [] [.text "A"], .elem "li" [] [.text "A"],
      .elem "li" [] []]]]]

/-- C2 (counterexample): the heading-adjacent list step returns its
collected entries without the post-processing pass, so the returned
details list can contain an empty entry and two entries equal after
whitespace collapsing. -/
theorem c2_counterexample :
    extract_details dupDetailsPage = ["A", "A", ""] ∧
    "" ∈ extract_details dupDetailsPage ∧
    ¬((extract_details dupDetailsPage).map collapseWs).Nodup :=
  ⟨by decide, by decide, by decide⟩

/-- C2 (amended): only the final first-50-list-items fallback is
post-processed.  When neither the heading step nor the
specification-keyword step fires, the returned list has no empty
entries, no two entries equal after whitespace collapsing, and its
entries appear in the first-seen order of the input (the result is a sublist
of the collapsed fallback texts). -/
theorem c2_fallback_invariant (soup : Node)
    (h1 : headingStep soup = none) (h2 : specStep soup = none) :
    extract_details soup = postprocess (fallbackLis soup) ∧
    (∀ s ∈ extract_details soup, ¬(s = "")) ∧
    ((extract_details soup).map collapseWs).Nodup ∧
    List.Sublist (extract_details soup) ((fallbackLis soup).map collapseWs) := by
  have he : extract_details soup = postprocess (fallbackLis soup) := by
    simp [extract_details, h1, h2]
  have hinv := postprocessAux_invariant (fallbackLis soup) []
  have hfix : ((postprocess (fallbackLis soup)).map collapseWs)
      = postprocess (fallbackLis soup) := by
    unfold postprocess
    rw [List.map_congr_left (fun s hs => (hinv.1 s hs).2.1)]
    simp
  refine ⟨he, ?_, ?_, ?_⟩
  · rw [he]; exact fun s hs => (hinv.1 s hs).1
  · rw [he, hfix]; exact hinv.2
  · rw [he]; exact postprocessAux_sublist (fallbackLis soup) []

/-- A page with only bare list items, exercising the fallback path. -/
def plainListPage : Node :=
  .elem "[document]" [] [.elem "body" [] [.elem "ul" [] [
    .elem "li" [] [.text "  x   y "], .elem "li" [] [.text "x y"],
    .elem "li" [] [.text " "]]]]

/-- Witness for `c2_fallback_invariant` on a concrete fallback-path
page. -/
theorem c2_witness :
    headingStep plainListPage = none ∧ specStep plainListPage = none ∧
    extract_details plainListPage = ["x y"] ∧
    (∀ s ∈ extract_details plainListPage, ¬(s = "")) :=
  ⟨by decide, by decide, by decide,
   (c2_fallback_invariant plainListPage (by decide) (by decide)).2.1⟩

/-! ## C9 — batch isolation -/

/-- Function `check_page` never modifies the store: the save path raises before
writing and the no-save path returns the store unchanged. -/
theorem check_page_store_eq (url : String) (f : Except String Node) (store : Store)
    (b : Bool) (now : String) (r : Report) (s' : Store)
    (h : check_page url f store b now = .ok (r, s')) : s' = store := by
  cases f with
  | error e => exact absurd h (by simp [check_page])
  | ok doc =>
    cases b with
    | true => exact absurd h (by simp [check_page])
    | false =>
      simp only [check_page, if_neg (by simp : ¬(false = true)), Except.ok.injEq,
        Prod.mk.injEq] at h
      exact h.2.symm

/-- Python dict assignment with a fresh key appends. -/
theorem dictUpsert_append (k : String) (v : UrlResult) :
    ∀ results : List (String × UrlResult),
      (∀ r ∈ results, ¬(r.1 = k)) → dictUpsert k v results = results ++ [(k, v)] := by
  intro results
  induction results with
  | nil => intro _; rfl
  | cons r rest ih =>
    intro h
    have hr : ¬(r.1 = k) := h r (by simp)
    rw [dictUpsert]
    simp only [hr, if_false, List.cons_append, List.cons.injEq, true_and]
    exact ih (fun x hx => h x (List.mem_cons_of_mem _ hx))

/-- The batch loop with pairwise-distinct URLs: each URL contributes
exactly its own outcome against the initial store (which is never
modified), appended in input order. -/
theorem runBatchAux_eq (ns : Bool) (now : String) :
    ∀ (pages : List (String × Except String Node)) (results : List (String × UrlResult))
      (store : Store),
      (∀ u ∈ pages.map Prod.fst, ∀ r ∈ results, ¬(r.1 = u)) →
      (pages.map Prod.fst).Nodup →
      runBatchAux ns now pages results store =
        (results ++ pages.map (fun p => (p.1, pageOutcome p store ns now)), store) := by
  intro pages
  induction pages with
  | nil => intro results store _ _; simp [runBatchAux]
  | cons p rest ih =>
    intro results store hdisj hnd
    obtain ⟨url, fetched⟩ := p
    rw [List.map_cons] at hnd
    have hnd' := List.nodup_cons.mp hnd
    have hknotin : ∀ r ∈ results, ¬(r.1 = url) := hdisj url (by simp)
    have hcond : ∀ v : UrlResult, ∀ u ∈ List.map Prod.fst rest,
        ∀ x ∈ results ++ [(url, v)], ¬(x.1 = u) := by
      intro v u hu x hx
      rcases List.mem_append.mp hx with hx | hx
      · exact hdisj u (List.mem_cons_of_mem _ hu) x hx
      · rcases List.mem_singleton.mp hx with rfl
        intro hc
        have hueq : url = u := hc
        subst hueq
        exact hnd'.1 hu
    rw [runBatchAux]
    cases hcp : check_page url fetched store (!ns) now with
    | ok pr =>
      obtain ⟨res, store'⟩ := pr
      have hst : store' = store := check_page_store_eq _ _ _ _ _ _ _ hcp
      simp only [hcp]
      rw [hst, dictUpsert_append _ _ _ hknotin,
        ih (results ++ [(url, UrlResult.rep res)]) store (hcond _) hnd'.2]
      simp [pageOutcome, hcp]
    | error e =>
      simp only [hcp]
      rw [dictUpsert_append _ _ _ hknotin,
        ih (results ++ [(url, UrlResult.err e)]) store (hcond _) hnd'.2]
      simp [pageOutcome, hcp]

/-- C9: batch isolation.  With pairwise-distinct URLs the result
collection has exactly one entry per input URL, each entry is the own outcome of that one
URL (so a failure of one URL cannot influence the entry of another
URL), a failing URL yields the error record, and the store is
whatever the per-URL calls left it (unchanged, by
`check_page_store_eq`). -/
theorem c9_batch_isolation (pages : List (String × Except String Node)) (store : Store)
    (no_save : Bool) (now : String) (hnd : (pages.map Prod.fst).Nodup) :
    (runBatch pages store no_save now).1 =
      pages.map (fun p => (p.1, pageOutcome p store no_save now)) ∧
    (runBatch pages store no_save now).2 = store ∧
    (∀ u e : String, pageOutcome (u, .error e) store no_save now = .err e) := by
  have h2 : runBatch pages store no_save now =
      (pages.map (fun p => (p.1, pageOutcome p store no_save now)), store) := by
    show runBatchAux no_save now pages [] store = _
    rw [runBatchAux_eq no_save now pages [] store (by simp) hnd]
    simp
  exact ⟨by rw [h2], by rw [h2], fun u e => rfl⟩

/-- A page carrying a semantic price marker. -/
def priceOnlyPage : Node :=
  .elem "[document]" [] [.elem "body" [] [
    .elem "span" [("itemprop", "price")] [.text "1 234,50 Kč"]]]

/-- A page with no extractable fields. -/
def plainPage : Node := .elem "[document]" [] [.elem "p" [] [.text "hello"]]

/-- Witness for `c9_batch_isolation`: three URLs, the second failing
with a retrieval error; the first and third still produce full
first-run change reports and the failing URL yields the error record. -/
theorem c9_witness :
    (runBatch [("u1", .ok priceOnlyPage), ("u2", .error "HTTPError: 500"),
        ("u3", .ok plainPage)] [] true "t").1 =
      [("u1", .rep ⟨true, ["Žádný předchozí záznam — uloženo jako výchozí stav."],
          none, ⟨some "1234.50", none, [], "t"⟩⟩),
       ("u2", .err "HTTPError: 500"),
       ("u3", .rep ⟨true, ["Žádný předchozí záznam — uloženo jako výchozí stav."],
          none, ⟨none, none, [], "t"⟩⟩)] := by
  rw [(c9_batch_isolation _ _ _ _ (by decide)).1]
  decide

/-! ## C10 — the availability context regex always matches -/

/-- If the keyword matches at the head of `u`, the context pattern
matches at `u` (the zero-length context alternative always fits). -/
theorem ctxAtSuf_ne_none {kw u : List Char} (h : iPrefixAt kw u = true) :
    ¬(ctxAtSuf kw u = none) := by
  intro hnone
  rw [ctxAtSuf] at hnone
  have h0mem : (0 : ℕ) ∈ (List.range 41).reverse := by decide
  have h0 := List.findSome?_eq_none_iff.mp hnone 0 h0mem
  simp [h] at h0

/-- C10: whenever a keyword occurs (case-insensitively) in the page
text, the context regex `.{0,40}` ++ keyword ++ `.{0,40}` also matches,
and the match itself contains the keyword; consequently every value the
keyword step returns is the stripped context match — the bare-keyword
fallback branch is unreachable. -/
theorem c10_context_regex_total :
    (∀ t kw : List Char, icontainsL t kw = true →
        ∃ g, ctxSearchL t kw = some g ∧ icontainsL g kw = true) ∧
    (∀ (text res : String), keywordStep text = some res →
        ∃ (kw : String) (g : List Char), kw ∈ availKeywords ∧
          icontainsL text.toList kw.toList = true ∧
          ctxSearchL text.toList kw.toList = some g ∧
          res = String.mk (pyStripL g) ∧ icontainsL g kw.toList = true) := by
  have main : ∀ t kw : List Char, icontainsL t kw = true →
      ∃ g, ctxSearchL t kw = some g ∧ icontainsL g kw = true := by
    intro t kw h
    obtain ⟨u, hu, hpre⟩ := List.any_eq_true.mp h
    have hne : ¬(ctxSearchL t kw = none) := by
      intro hnone
      rw [ctxSearchL] at hnone
      exact ctxAtSuf_ne_none hpre (List.findSome?_eq_none_iff.mp hnone u hu)
    obtain ⟨g, hg⟩ := Option.ne_none_iff_exists'.mp hne
    refine ⟨g, hg, ?_⟩
    obtain ⟨u', hu', hgu⟩ := List.exists_of_findSome?_eq_some hg
    obtain ⟨l, hl, hlg⟩ := List.exists_of_findSome?_eq_some hgu
    split at hlg
    case isFalse => exact absurd hlg (by simp)
    case isTrue hcond =>
      obtain ⟨hlen, _, hkwat⟩ := hcond
      have hgval : g = u'.take (l + kw.length +
          min 40 (((u'.drop (l + kw.length)).takeWhile (fun c => ¬(c = '\n'))).length)) := by
        exact (Option.some.injEq _ _ ▸ hlg).symm
      set m := min 40 (((u'.drop (l + kw.length)).takeWhile (fun c => ¬(c = '\n'))).length) with hm
      have hdropg : g.drop l = (u'.drop l).take (kw.length + m) := by
        rw [hgval, List.drop_take]
        congr 1
        omega
      have hpreg : iPrefixAt kw (g.drop l) = true := by
        rw [iPrefixAt, List.isPrefixOf_iff_prefix] at hkwat ⊢
        rw [hdropg]
        rw [lowerL, lowerL, List.map_take] at *
        rw [List.prefix_take_iff]
        refine ⟨hkwat, ?_⟩
        simp [lowerL]
      refine List.any_eq_true.mpr ⟨g.drop l, ?_, hpreg⟩
      exact (List.mem_tails _ _).mpr (List.drop_suffix _ _)
  refine ⟨main, ?_⟩
  intro text res h
  obtain ⟨kw, hkwmem, hkwv⟩ := List.exists_of_findSome?_eq_some h
  split at hkwv
  case isFalse => exact absurd hkwv (by simp)
  case isTrue hic =>
    obtain ⟨g, hg, hcont⟩ := main text.toList kw.toList hic
    refine ⟨kw, g, hkwmem, hic, hg, ?_, hcont⟩
    have : kwBranch text kw = res := Option.some.injEq _ _ ▸ hkwv
    rw [← this, kwBranch, hg]

/-- Witness for `c10_context_regex_total` on concrete page text (the
keyword "Skladem" occurring in lower case). -/
theorem c10_witness :
    icontainsL ("Zbozi je skladem ihned".toList) ("Skladem".toList) = true ∧
    (∃ g, ctxSearchL ("Zbozi je skladem ihned".toList) ("Skladem".toList) = some g ∧
      icontainsL g ("Skladem".toList) = true) :=
  ⟨by decide, c10_context_regex_total.1 _ _ (by decide)⟩
